import Mathlib

/-!
Verification of the liveai-service core against its specification.

The Python sources are shallowly embedded: strings become `List Char`
(Python strings are sequences of Unicode code points), the regex-based
substitutions of `core/websocket_handler.py` become structurally
recursive scanners with the same match semantics, and the stateful
components (`PortScanProtector`, `GeminiWarmupPool`, the handshake
handler) become explicit state-passing functions or labelled transition
systems.  Floating-point ratio comparisons such as `en_ratio >= 0.6`
are modelled by the exact rational comparisons they compute
(`5 * en >= 3 * total`), which agree with the float computation on all
realizable string lengths.
-/

namespace LiveAI

/-! ## Character classes

`isPySpace` is the set matched by Python `\s` on `str` patterns and
stripped by `str.strip()`.  `isCJK` is the block `U+4E00..U+9FFF` used
by `detect_language_ratio` and the cleanup regexes; `isAsciiLetter` is
`[A-Za-z]`; `isAsciiDigit` is `[0-9]`; `isCJKPunct` is the punctuation
class of step 6 of `smart_clean_spaces`. -/

def isPySpace (c : Char) : Bool :=
  let n := c.toNat
  n == 32 || (9 ≤ n && n ≤ 13) || (28 ≤ n && n ≤ 31) || n == 0x85 ||
  n == 0xa0 || n == 0x1680 || (0x2000 ≤ n && n ≤ 0x200a) ||
  n == 0x2028 || n == 0x2029 || n == 0x202f || n == 0x205f || n == 0x3000

def isCJK (c : Char) : Bool :=
  0x4e00 ≤ c.toNat && c.toNat ≤ 0x9fff

def isAsciiLetter (c : Char) : Bool :=
  (65 ≤ c.toNat && c.toNat ≤ 90) || (97 ≤ c.toNat && c.toNat ≤ 122)

def isAsciiDigit (c : Char) : Bool :=
  48 ≤ c.toNat && c.toNat ≤ 57

def isCJKPunct (c : Char) : Bool :=
  let n := c.toNat
  n == 0xff0c || n == 0x3002 || n == 0xff01 || n == 0xff1f ||
  n == 0x3001 || n == 0xff1b || n == 0xff1a

/-- Count of `[一-鿿]` characters (the numerator of the
Chinese ratio in `detect_language_ratio`). -/
def cjkCount (l : List Char) : Nat := (l.filter isCJK).length

/-- Count of `[A-Za-z]` characters (the numerator of the English
share in `detect_language_ratio`). -/
def asciiLetterCount (l : List Char) : Nat := (l.filter isAsciiLetter).length

/-! ## Regex substitution primitives

Each `re.sub` call of `smart_clean_spaces` is embedded as a
left-to-right scanner.  `pending` buffers the current whitespace run,
which is flushed, deleted, or replaced once the following significant
character is known, exactly as the greedy `\s+` or `\s*` with
lookbehind and lookahead behaves. -/

/-- Scanner for step 2, `re.sub(r'\s+', ' ', text)`: every maximal
nonempty whitespace run becomes a single ASCII space.  `inRun` records
whether the previous character was whitespace. -/
def collapseSpacesGo (inRun : Bool) : List Char → List Char
  | [] => []
  | c :: rest =>
    if isPySpace c then
      if inRun then collapseSpacesGo true rest
      else ' ' :: collapseSpacesGo true rest
    else c :: collapseSpacesGo false rest

def collapseSpaces (l : List Char) : List Char := collapseSpacesGo false l

/-- Scanner for `re.sub(r'(?<=A)\s+(?=B)', '', text)`: a whitespace
run is deleted exactly when the character immediately before it
satisfies `pA` and the character immediately after it satisfies `pB`.
`prevA` records whether the last emitted character satisfied `pA`. -/
def delBetweenGo (pA pB : Char → Bool) (prevA : Bool) (pending : List Char) :
    List Char → List Char
  | [] => pending
  | c :: rest =>
    if isPySpace c then delBetweenGo pA pB prevA (pending ++ [c]) rest
    else if prevA && !pending.isEmpty && pB c then
      c :: delBetweenGo pA pB (pA c) [] rest
    else pending ++ c :: delBetweenGo pA pB (pA c) [] rest

def delBetween (pA pB : Char → Bool) (l : List Char) : List Char :=
  delBetweenGo pA pB false [] l

/-- Scanner for `re.sub(r'(?<=A)\s*(?=B)', ' ', text)`: a possibly
empty whitespace run between a `pA` character and a `pB` character is
replaced by exactly one space (so a space is inserted when the two are
adjacent). -/
def sepBetweenGo (pA pB : Char → Bool) (prevA : Bool) (pending : List Char) :
    List Char → List Char
  | [] => pending
  | c :: rest =>
    if isPySpace c then sepBetweenGo pA pB prevA (pending ++ [c]) rest
    else if prevA && pB c then
      ' ' :: c :: sepBetweenGo pA pB (pA c) [] rest
    else pending ++ c :: sepBetweenGo pA pB (pA c) [] rest

def sepBetween (pA pB : Char → Bool) (l : List Char) : List Char :=
  sepBetweenGo pA pB false [] l

/-- Scanner for step 6, `re.sub(r'\s*([，。！？、；：])\s*', r'\1', text)`:
whitespace runs adjacent to a CJK punctuation character are deleted.
`afterP` records that the previous significant character was CJK
punctuation, whose greedy trailing `\s*` consumes the buffered run. -/
def punctGo (afterP : Bool) (pending : List Char) : List Char → List Char
  | [] => if afterP then [] else pending
  | c :: rest =>
    if isPySpace c then punctGo afterP (pending ++ [c]) rest
    else if isCJKPunct c then c :: punctGo true [] rest
    else (if afterP then [] else pending) ++ c :: punctGo false [] rest

def stripAroundPunct (l : List Char) : List Char := punctGo false [] l

/-- Python `str.strip()`: remove leading and trailing whitespace. -/
def pyStrip (l : List Char) : List Char :=
  ((l.dropWhile isPySpace).reverse.dropWhile isPySpace).reverse

/-! ## smart_clean_spaces (websocket_handler.py, lines 401-438) -/

/-- Embedding of `smart_clean_spaces`.  The float comparisons
`en_ratio >= 0.6`, `ch_ratio < 0.2` and `ch_ratio >= 0.6` of the
source are modelled by the exact rational inequalities
`5*en >= 3*total`, `5*ch < total` and `5*ch >= 3*total`. -/
def smart_clean_spaces (text : List Char) : List Char :=
  if pyStrip text = [] then text
  else
    let total := text.length
    let ch := cjkCount text
    let en := asciiLetterCount text
    if 3 * total ≤ 5 * en ∧ 5 * ch < total then text
    else
      let r1 := collapseSpaces text
      let r2 := delBetween isCJK isCJK r1
      let r3 := delBetween isAsciiDigit isCJK r2
      let r4 := delBetween isCJK isAsciiDigit r3
      let r5 :=
        if 3 * total ≤ 5 * ch then
          delBetween isAsciiLetter isCJK (delBetween isCJK isAsciiLetter r4)
        else
          sepBetween isAsciiLetter isCJK (sepBetween isCJK isAsciiLetter r4)
      pyStrip (stripAroundPunct r5)

/-! ## clean_unbalanced_or_extra_quotes (websocket_handler.py, lines 440-459) -/

/-- Step 1: Python `data.replace(chr(92) ++ chr(34), empty)`, removing
each occurrence of a backslash immediately followed by a straight
double quote, scanning left to right. -/
def removeEscQuote : List Char → List Char
  | '\\' :: '"' :: rest => removeEscQuote rest
  | c :: rest => c :: removeEscQuote rest
  | [] => []

/-- Step 3 scanner, `re.sub(r'\s{2,}', ' ', text)`: only whitespace
runs of length at least two are collapsed to one space; a lone
whitespace character is kept as is. -/
def collapseTwoGo (pending : List Char) : List Char → List Char
  | [] => if 2 ≤ pending.length then [' '] else pending
  | c :: rest =>
    if isPySpace c then collapseTwoGo (pending ++ [c]) rest
    else (if 2 ≤ pending.length then [' '] else pending) ++
          c :: collapseTwoGo [] rest

def collapseTwo (l : List Char) : List Char := collapseTwoGo [] l

/-- Embedding of `clean_unbalanced_or_extra_quotes`. -/
def clean_unbalanced_or_extra_quotes (data : List Char) : List Char :=
  pyStrip (collapseTwo ((removeEscQuote data).filter (fun c => c ≠ '"')))

/-- The text payload sent to the client for a model text part
(`process_server_content`, lines 488-494): `smart_clean_spaces`
followed by `clean_unbalanced_or_extra_quotes`. -/
def sentTextData (t : List Char) : List Char :=
  clean_unbalanced_or_extra_quotes (smart_clean_spaces t)

/-! ## Base64 (process_server_content audio branch, lines 480-487)

`base64.b64encode` with the standard alphabet, over byte lists. -/

def b64Alphabet : List Char :=
  "ABCDEFGHIJKLMNOPQRSTUVWXYZabcdefghijklmnopqrstuvwxyz0123456789+/".data

def b64Char (n : Nat) : Char := b64Alphabet.getD n 'A'

def b64encode : List Nat → List Char
  | [] => []
  | [a] => [b64Char (a / 4), b64Char (a % 4 * 16), '=', '=']
  | [a, b] => [b64Char (a / 4), b64Char (a % 4 * 16 + b / 16),
               b64Char (b % 16 * 4), '=']
  | a :: b :: c :: rest =>
      b64Char (a / 4) :: b64Char (a % 4 * 16 + b / 16) ::
      b64Char (b % 16 * 4 + c / 64) :: b64Char (c % 64) :: b64encode rest

/-- The audio payload sent to the client for an inline_data part
(`process_server_content`, lines 480-487): Base64 encoding followed by
`clean_unbalanced_or_extra_quotes`. -/
def sentAudioData (bytes : List Nat) : List Char :=
  clean_unbalanced_or_extra_quotes (b64encode bytes)

/-! ## PortScanProtector (RobustWebSocketServerProtocol.py, lines 13-49)

Per-IP state: the recorded attempt timestamps and the optional
ban-until time.  `time.time()` values are modelled as integers. -/

structure ScanState where
  attempts : List Int
  bannedUntil : Option Int
  deriving Repr, DecidableEq

/-- Body of `should_accept` after the ban check: append `now`, retain
the last 300 seconds, ban and refuse when more than
`scan_threshold = 10` attempts remain. -/
def recordAndCheck (st : ScanState) (now : Int) : Bool × ScanState :=
  let kept := (st.attempts ++ [now]).filter (fun t => now - t < 300)
  if 10 < kept.length then
    (false, { attempts := kept, bannedUntil := some (now + 1800) })
  else
    (true, { attempts := kept, bannedUntil := st.bannedUntil })

/-- Embedding of `PortScanProtector.should_accept` for one IP. -/
def should_accept (st : ScanState) (now : Int) : Bool × ScanState :=
  match st.bannedUntil with
  | some b =>
    if now < b then (false, st)
    else recordAndCheck { st with bannedUntil := none } now
  | none => recordAndCheck st now

/-! ## GeminiWarmupPool (warmup_pool.py)

`warmup_sessions` runs `created = await self._queue.qsize()` after the
first batch; `asyncio.Queue.qsize()` returns `int`, and awaiting an
`int` raises `TypeError`, so the loop body cannot complete. -/

/-- A Python exception raised by the embedded coroutine.  The payload
of `intNotAwaitable` records the queue size at the raise point. -/
inductive PyError where
  | intNotAwaitable (qsizeAtRaise : Nat)
  deriving Repr, DecidableEq

/-- One iteration of the `while created < self.pool_size` loop of
`warmup_sessions` (lines 74-90), starting from `created` and a queue
holding `queue` sessions, assuming every creation succeeds.  The batch
of `min batch_size (pool_size - created)` tasks is gathered, after
which the statement `created = await self._queue.qsize()` awaits the
`int` returned by `qsize()` and raises `TypeError`. -/
def warmup_sessions_loop (pool_size batch_size : Nat) (shutting_down : Bool)
    (created queue : Nat) : Except PyError Nat :=
  if created < pool_size ∧ !shutting_down then
    let to_create := min batch_size (pool_size - created)
    let queueAfterBatch := queue + to_create
    Except.error (PyError.intNotAwaitable queueAfterBatch)
  else Except.ok queue

/-- Embedding of `GeminiWarmupPool.warmup_sessions` from its entry
state (`created = 0`, empty queue, not shutting down). -/
def warmup_sessions (pool_size batch_size : Nat) : Except PyError Nat :=
  warmup_sessions_loop pool_size batch_size false 0 0

/-- Observable effect of one `get_session` call (lines 147-169).
`queueBefore` is the pool queue, `fresh` names the client that
`_create_client_in_thread` would build on demand.  `usedCreationSem`
records whether the call path acquires `self._sem` (the
`creation_concurrency` semaphore): only `_create_and_put_safe` does,
and `get_session` never calls it. -/
structure GetSessionResult where
  returned : Nat
  queueAfter : List Nat
  scheduledEnsure : Bool
  createdOnDemand : Bool
  usedCreationSem : Bool
  deriving Repr, DecidableEq

def get_session (queueBefore : List Nat) (fresh : Nat) : GetSessionResult :=
  match queueBefore with
  | [] =>
    { returned := fresh, queueAfter := [], scheduledEnsure := false,
      createdOnDemand := true, usedCreationSem := false }
  | h :: t =>
    { returned := h, queueAfter := t, scheduledEnsure := true,
      createdOnDemand := false, usedCreationSem := false }

/-- Observable effect of `_create_and_put_safe` (lines 92-103), which
does acquire the creation semaphore around the blocking init. -/
def create_and_put_safe_usesSem : Bool := true

/-! ## Pool transition system (claim C8)

Labelled small-step semantics for the pool counters under concurrent
`warmup_sessions`, `get_session`, `return_session` and
`ensure_pool_capacity` calls.  `queue` is the queue size,
`outstanding` the sessions handed to clients, `sched` the
scheduled-but-not-started replenish tasks, `lock`/`pending` the
replenish in progress under `self._lock` (`pending` creations still to
finish), and `warmupStarted`/`warmupPending` the state of the one-shot
initial warmup: its batch of `min batch_size pool_size` creation tasks
puts into the queue WITHOUT holding `self._lock`, and no later batch
ever runs because the statement `created = await self._queue.qsize()`
raises `TypeError` right after the first gather (claim C5), so the
warmup contributes at most its first batch of puts. -/

structure PoolSt where
  queue : Nat
  outstanding : Nat
  sched : Nat
  lock : Bool
  pending : Nat
  warmupStarted : Bool
  warmupPending : Nat
  deriving Repr, DecidableEq

inductive PoolLbl where
  | warmup
  | acquire
  | release
  | replenish
  deriving Repr, DecidableEq

/-- `threshold = max(1, self.pool_size // 2)` from
`ensure_pool_capacity`. -/
def poolThreshold (cap : Nat) : Nat := max 1 (cap / 2)

inductive PoolStep (cap batch : Nat) : PoolLbl → PoolSt → PoolSt → Prop where
  /-- `warmup_sessions` enters its loop and spawns its first (and, by
  the C5 `TypeError`, only) batch of `min batch_size (pool_size - 0)`
  creation tasks, none guarded by `self._lock`. -/
  | warmupStart (q o sc p : Nat) (l : Bool) :
      PoolStep cap batch PoolLbl.warmup ⟨q, o, sc, l, p, false, 0⟩
        ⟨q, o, sc, l, p, true, min batch cap⟩
  /-- One warmup creation task finishes and puts its client into the
  queue, with no lock held. -/
  | warmupPut (q o sc p wp : Nat) (l : Bool) :
      PoolStep cap batch PoolLbl.warmup ⟨q, o, sc, l, p, true, wp + 1⟩
        ⟨q + 1, o, sc, l, p, true, wp⟩
  /-- One warmup creation task fails; `_create_and_put_safe` logs and
  puts nothing. -/
  | warmupPutFail (q o sc p wp : Nat) (l : Bool) :
      PoolStep cap batch PoolLbl.warmup ⟨q, o, sc, l, p, true, wp + 1⟩
        ⟨q, o, sc, l, p, true, wp⟩
  /-- `get_session` with a non-empty queue: pop the head and schedule
  `ensure_pool_capacity` as a background task. -/
  | acquireHit (q o sc p wp : Nat) (l ws : Bool) :
      PoolStep cap batch PoolLbl.acquire ⟨q + 1, o, sc, l, p, ws, wp⟩
        ⟨q, o + 1, sc + 1, l, p, ws, wp⟩
  /-- `get_session` with an empty queue: create a client on demand. -/
  | acquireMiss (o sc p wp : Nat) (l ws : Bool) :
      PoolStep cap batch PoolLbl.acquire ⟨0, o, sc, l, p, ws, wp⟩
        ⟨0, o + 1, sc, l, p, ws, wp⟩
  /-- `return_session` while not shutting down: unconditional
  `self._queue.put(client)`. -/
  | release (q o sc p wp : Nat) (l ws : Bool) :
      PoolStep cap batch PoolLbl.release ⟨q, o + 1, sc, l, p, ws, wp⟩
        ⟨q + 1, o, sc, l, p, ws, wp⟩
  /-- A scheduled `ensure_pool_capacity` task acquires the lock, sees
  the queue at or above threshold, and returns. -/
  | ensureSkip (q o sc p wp : Nat) (ws : Bool) (h : poolThreshold cap ≤ q) :
      PoolStep cap batch PoolLbl.replenish ⟨q, o, sc + 1, false, p, ws, wp⟩
        ⟨q, o, sc, false, p, ws, wp⟩
  /-- A scheduled `ensure_pool_capacity` task acquires the lock below
  threshold and starts `pool_size - current` creation tasks. -/
  | ensureGo (q o sc p wp : Nat) (ws : Bool) (h : q < poolThreshold cap) :
      PoolStep cap batch PoolLbl.replenish ⟨q, o, sc + 1, false, p, ws, wp⟩
        ⟨q, o, sc, true, cap - q, ws, wp⟩
  /-- One replenish creation task finishes and puts its client. -/
  | putOk (q o sc p wp : Nat) (ws : Bool) :
      PoolStep cap batch PoolLbl.replenish ⟨q, o, sc, true, p + 1, ws, wp⟩
        ⟨q + 1, o, sc, true, p, ws, wp⟩
  /-- One replenish creation task fails; the failure is logged and
  nothing is put. -/
  | putFail (q o sc p wp : Nat) (ws : Bool) :
      PoolStep cap batch PoolLbl.replenish ⟨q, o, sc, true, p + 1, ws, wp⟩
        ⟨q, o, sc, true, p, ws, wp⟩
  /-- The replenish gather completes and the lock is released. -/
  | ensureDone (q o sc wp : Nat) (ws : Bool) :
      PoolStep cap batch PoolLbl.replenish ⟨q, o, sc, true, 0, ws, wp⟩
        ⟨q, o, sc, false, 0, ws, wp⟩

def poolInit : PoolSt := ⟨0, 0, 0, false, 0, false, 0⟩

/-- Inductive invariant for the release-free pool system: `pending`
is zero when the replenish lock is free, the warmup batch counter is
zero before warmup starts and never exceeds the first batch size, the
queue plus in-flight replenish puts stay within capacity until warmup
starts, and afterwards queue plus all in-flight puts stay within
capacity plus the warmup batch. -/
def poolInv (cap batch : Nat) (s : PoolSt) : Prop :=
  (s.lock = false → s.pending = 0) ∧
  (s.warmupStarted = false → s.warmupPending = 0) ∧
  s.warmupPending ≤ min batch cap ∧
  (s.warmupStarted = false → s.queue + s.pending ≤ cap) ∧
  s.queue + s.pending + s.warmupPending ≤ cap + min batch cap

/-! ## Session record and transparent reconnection

The `SessionState` record is instantiated in `handle_client`
(websocket_handler.py, lines 563-577) with the fields accessed there:
`genai_session`, `BaseInfo`, `RocketMQ`, `current_tool_execution`,
`is_receiving_response`, `received_model_response`.  `BaseInfo` itself
is the dataclass of core/base_info.py.  Upstream handles and producers
are abstracted as numeric identifiers. -/

structure BaseInfoRec where
  userId : Option (List Char)
  token : Option (List Char)
  longitude : Option Int
  latitude : Option Int
  voice : Option (List Char)
  location : Option (List Char)
  date : Option Int
  deriving Repr, DecidableEq

structure SessionState where
  genai_session : Nat
  BaseInfo : BaseInfoRec
  RocketMQ : Nat
  current_tool_execution : Option Nat
  is_receiving_response : Bool
  received_model_response : Bool
  deriving Repr, DecidableEq

/-- Frames the reconnection paths send to the client. -/
inductive PumpFrame where
  | stateFrame (data : List Char)
  | reconnectedFrame (data : List Char)
  deriving Repr, DecidableEq

/-- Embedding of the `go_away` reconnection block of
`handle_gemini_responses` (websocket_handler.py, lines 287-302): close
the old upstream, notify the client, create a fresh upstream from
`session.BaseInfo` (abstracted as `newHandle`), assign
`session.genai_session`, notify again, raise `ReconnectionCompleted`.
The result is the mutated session record, the frames sent, and whether
`ReconnectionCompleted` was raised. -/
def goAwayReconnect (s : SessionState) (newHandle : Nat) :
    SessionState × List PumpFrame × Bool :=
  ({ s with genai_session := newHandle },
   [PumpFrame.stateFrame "start reconnect".data,
    PumpFrame.reconnectedFrame "reconnected successfully".data],
   true)

/-- Embedding of the abnormal-close reconnection path of
`handle_gemini_responses` (the `ConnectionClosedError` handler,
lines 303-311): same field effect, no preparatory state frame. -/
def abnormalCloseReconnect (s : SessionState) (newHandle : Nat) :
    SessionState × List PumpFrame × Bool :=
  ({ s with genai_session := newHandle },
   [PumpFrame.reconnectedFrame "reconnected successfully".data],
   true)

/-- Embedding of the `ReconnectionCompleted` arm of the
`while True` loop in `handle_client` (lines 577-589): the loop
continues with the very same session record. -/
def handleClientReconnectArm (s : SessionState) : SessionState := s

/-! ## Handshake handler (server.py, lines 226-263)

`safe_ws_handler` sends the ready frame, then awaits the readiness
future with `asyncio.wait_for(fut, timeout=5)`.  The await either
resolves (with `success` false also covering a `None` session) or
raises `asyncio.TimeoutError`.  `TimeoutError` is not among
`ConnectionClosedOK`, `EOFError`, `ConnectionClosedError`,
`InvalidHandshake`, `WebSocketException`, so it reaches the generic
`except Exception` arm, which only logs. -/

inductive AwaitOutcome where
  | resolved (success : Bool)
  | timedOut
  deriving Repr, DecidableEq

inductive HsEvent where
  | sentReady (sessionId : Nat)
  | closedWith (code : Nat) (reason : List Char)
  | enteredPump
  | loggedException
  deriving Repr, DecidableEq

def handshakeTimeoutSeconds : Nat := 5

def safe_ws_handler (sid : Nat) (r : AwaitOutcome) : List HsEvent :=
  HsEvent.sentReady sid ::
  match r with
  | AwaitOutcome.resolved false =>
      [HsEvent.closedWith 1008 "Gemini initialization failed".data]
  | AwaitOutcome.resolved true => [HsEvent.enteredPump]
  | AwaitOutcome.timedOut => [HsEvent.loggedException]

/-- States reachable by any interleaving of pool operations. -/
inductive PoolReach (cap batch : Nat) : PoolSt → Prop where
  | init : PoolReach cap batch poolInit
  | step (s s2 : PoolSt) (lb : PoolLbl) :
      PoolReach cap batch s → PoolStep cap batch lb s s2 →
      PoolReach cap batch s2

/-- States reachable without ever returning a session to the pool. -/
inductive PoolReachNoRelease (cap batch : Nat) : PoolSt → Prop where
  | init : PoolReachNoRelease cap batch poolInit
  | step (s s2 : PoolSt) (lb : PoolLbl) :
      PoolReachNoRelease cap batch s → PoolStep cap batch lb s s2 →
      lb ≠ PoolLbl.release → PoolReachNoRelease cap batch s2

/-- Number of recorded attempts still inside the 300-second retention
window at time `now`. -/
def windowCount (st : ScanState) (now : Int) : Nat :=
  (st.attempts.filter (fun t => now - t < 300)).length

/-! ## Shape predicates for normalized text

Invariants of the cleaning pipeline used to prove idempotence on
CJK-free strings: every whitespace character is a plain ASCII space,
no two whitespace characters are adjacent, and no whitespace character
is adjacent to a CJK punctuation character. -/

def AllPlain (l : List Char) : Prop :=
  ∀ c ∈ l, isPySpace c = true → c = ' '

def NoAdj (l : List Char) : Prop :=
  List.Chain' (fun a b => isPySpace a = false ∨ isPySpace b = false) l

def NoPunctAdj (l : List Char) : Prop :=
  List.Chain' (fun a b =>
    (isPySpace a = false ∨ isCJKPunct b = false) ∧
    (isCJKPunct a = false ∨ isPySpace b = false)) l

/-- Conjunction of the three shape invariants established by the
cleaning pipeline. -/
def CleanTriple (l : List Char) : Prop :=
  AllPlain l ∧ NoAdj l ∧ NoPunctAdj l

end LiveAI

namespace LiveAI

/-! ## Claim C4: abuse-control gate boundary -/

theorem keptLength (st : ScanState) (now : Int) :
    ((st.attempts ++ [now]).filter (fun t => decide (now - t < 300))).length
      = windowCount st now + 1 := by
  rw [List.filter_append, List.length_append]
  have hsing : List.filter (fun t => decide (now - t < 300)) [now] = [now] := by
    simp
  rw [hsing]
  rfl

theorem recordAndCheck_accept (st : ScanState) (now : Int)
    (h : windowCount st now ≤ 9) :
    (recordAndCheck st now).1 = true := by
  have hc : ¬ 10 <
      ((st.attempts ++ [now]).filter (fun t => decide (now - t < 300))).length := by
    rw [keptLength]
    omega
  simp only [recordAndCheck]
  rw [if_neg hc]

theorem recordAndCheck_refuse (st : ScanState) (now : Int)
    (h : 10 ≤ windowCount st now) :
    (recordAndCheck st now).1 = false ∧
    (recordAndCheck st now).2.bannedUntil = some (now + 1800) := by
  have hc : 10 <
      ((st.attempts ++ [now]).filter (fun t => decide (now - t < 300))).length := by
    rw [keptLength]
    omega
  simp only [recordAndCheck]
  rw [if_pos hc]
  exact ⟨rfl, rfl⟩

/-- C4: while banned (`now < ban_until`) every attempt is refused; an
attempt finding exactly 10 retained attempts in the window is refused
and sets the ban to `now + 1800`; an attempt finding at most 9 (so in
particular each of the first 10 attempts) is admitted. -/
theorem portscan_gate_boundary (st : ScanState) (now : Int) :
    (∀ b : Int, st.bannedUntil = some b → now < b →
       (should_accept st now).1 = false)
    ∧ (st.bannedUntil = none →
        ((windowCount st now = 10 →
            (should_accept st now).1 = false ∧
            (should_accept st now).2.bannedUntil = some (now + 1800))
          ∧ (windowCount st now ≤ 9 →
            (should_accept st now).1 = true))) := by
  refine ⟨?_, ?_⟩
  · intro b hb hlt
    simp [should_accept, hb, hlt]
  · intro hnone
    have hsa : should_accept st now = recordAndCheck st now := by
      simp [should_accept, hnone]
    refine ⟨?_, ?_⟩
    · intro h10
      rw [hsa]
      exact recordAndCheck_refuse st now (by omega)
    · intro h9
      rw [hsa]
      exact recordAndCheck_accept st now h9

/-- C4 witness: with the ban active the attempt is refused; with 10
in-window attempts recorded the next attempt is refused and banned
until 1810; with 9 recorded it is admitted. -/
theorem portscan_gate_boundary_witness :
    ((ScanState.mk [] (some 100)).bannedUntil = some 100 ∧ (50 : Int) < 100 ∧
      (should_accept ⟨[], some 100⟩ 50).1 = false)
    ∧ (windowCount ⟨[0, 1, 2, 3, 4, 5, 6, 7, 8, 9], none⟩ 10 = 10 ∧
      (should_accept ⟨[0, 1, 2, 3, 4, 5, 6, 7, 8, 9], none⟩ 10).1 = false ∧
      (should_accept ⟨[0, 1, 2, 3, 4, 5, 6, 7, 8, 9], none⟩ 10).2.bannedUntil
        = some 1810)
    ∧ (windowCount ⟨[0, 1, 2, 3, 4, 5, 6, 7, 8], none⟩ 9 = 9 ∧
      (should_accept ⟨[0, 1, 2, 3, 4, 5, 6, 7, 8], none⟩ 9).1 = true) := by
  refine ⟨⟨rfl, by decide, ?_⟩, ⟨by decide, ?_, ?_⟩, ⟨by decide, ?_⟩⟩
  · exact (portscan_gate_boundary ⟨[], some 100⟩ 50).1 100 rfl (by decide)
  · exact (((portscan_gate_boundary ⟨[0, 1, 2, 3, 4, 5, 6, 7, 8, 9], none⟩ 10).2
      rfl).1 (by decide)).1
  · exact (((portscan_gate_boundary ⟨[0, 1, 2, 3, 4, 5, 6, 7, 8, 9], none⟩ 10).2
      rfl).1 (by decide)).2
  · exact ((portscan_gate_boundary ⟨[0, 1, 2, 3, 4, 5, 6, 7, 8], none⟩ 9).2
      rfl).2 (by decide)

/-! ## Claim C5: warmup batches -/

/-- C5: the warmup coroutine never completes normally for any positive
capacity.  After gathering the first batch, the statement
`created = await self._queue.qsize()` awaits the plain `int` returned
by `qsize()`, which raises `TypeError`; the loop is unreachable beyond
that point, so `warmup_sessions` raises instead of terminating
normally when the pool reaches capacity. -/
theorem warmup_sessions_raises_typeerror (pool_size batch_size : Nat)
    (h : 1 ≤ pool_size) :
    warmup_sessions pool_size batch_size =
      Except.error (PyError.intNotAwaitable (min batch_size pool_size)) := by
  simp [warmup_sessions, warmup_sessions_loop, h, Nat.lt_of_lt_of_le Nat.zero_lt_one h]

/-- C5 witness: at the default configuration (`pool_size = 10`,
`batch_size = 3`) warmup raises after the first batch of 3. -/
theorem warmup_sessions_raises_typeerror_witness :
    1 ≤ 10 ∧ warmup_sessions 10 3 =
      Except.error (PyError.intNotAwaitable 3) := by
  refine ⟨by decide, ?_⟩
  have h := warmup_sessions_raises_typeerror 10 3 (by decide)
  simpa using h

/-! ## Claim C6: get_session paths -/

/-- C6 counterexample: on the empty-queue path `get_session` creates a
client on demand via `_create_client_in_thread` without acquiring the
`creation_concurrency` semaphore (which only `_create_and_put_safe`
takes), refuting the claim that the on-demand creation respects the
semaphore bound. -/
theorem get_session_empty_path_skips_semaphore :
    (get_session [] 0).createdOnDemand = true ∧
    (get_session [] 0).usedCreationSem = false ∧
    create_and_put_safe_usesSem = true := by
  decide

/-- C6 (amended): with a non-empty queue, `get_session` removes and
returns the head and schedules `ensure_pool_capacity` as a
fire-and-forget task; with an empty queue it creates and returns a new
session synchronously, without acquiring the `creation_concurrency`
semaphore. -/
theorem get_session_spec (queue : List Nat) (fresh : Nat) :
    (∀ h t, queue = h :: t →
      (get_session queue fresh).returned = h ∧
      (get_session queue fresh).queueAfter = t ∧
      (get_session queue fresh).scheduledEnsure = true ∧
      (get_session queue fresh).createdOnDemand = false)
    ∧ (queue = [] →
      (get_session queue fresh).returned = fresh ∧
      (get_session queue fresh).createdOnDemand = true ∧
      (get_session queue fresh).scheduledEnsure = false ∧
      (get_session queue fresh).usedCreationSem = false) := by
  refine ⟨?_, ?_⟩
  · intro h t hq
    subst hq
    simp [get_session]
  · intro hq
    subst hq
    simp [get_session]

/-- C6 witness: concrete hit on queue `[5, 7]` and concrete miss on
the empty queue. -/
theorem get_session_spec_witness :
    ((get_session [5, 7] 0).returned = 5 ∧
      (get_session [5, 7] 0).queueAfter = [7] ∧
      (get_session [5, 7] 0).scheduledEnsure = true ∧
      (get_session [5, 7] 0).createdOnDemand = false)
    ∧ ((get_session [] 3).returned = 3 ∧
      (get_session [] 3).createdOnDemand = true ∧
      (get_session [] 3).scheduledEnsure = false ∧
      (get_session [] 3).usedCreationSem = false) := by
  exact ⟨(get_session_spec [5, 7] 0).1 5 [7] rfl, (get_session_spec [] 3).2 rfl⟩

/-! ## Claim C7: handshake readiness -/

/-- C7 counterexample: when the 5-second readiness await times out,
`asyncio.TimeoutError` falls through to the generic exception arm of
`safe_ws_handler`, which only logs; no close with code 1008 and reason
Gemini initialization failed is performed on the timeout path. -/
theorem handshake_timeout_not_closed_1008 :
    safe_ws_handler 1 AwaitOutcome.timedOut =
      [HsEvent.sentReady 1, HsEvent.loggedException] ∧
    HsEvent.closedWith 1008 "Gemini initialization failed".data ∉
      safe_ws_handler 1 AwaitOutcome.timedOut := by
  decide

/-- C7 (amended): the handler sends `{ready: true, session_id}` as its
first frame and awaits readiness with a 5-second bound; on
initialization failure it closes with 1008 and reason Gemini
initialization failed, but on timeout the generic exception arm runs
and no 1008 close is sent. -/
theorem handshake_ready_close_spec (sid : Nat) (r : AwaitOutcome) :
    (safe_ws_handler sid r).head? = some (HsEvent.sentReady sid)
    ∧ handshakeTimeoutSeconds = 5
    ∧ (r = AwaitOutcome.resolved false →
        safe_ws_handler sid r =
          [HsEvent.sentReady sid,
           HsEvent.closedWith 1008 "Gemini initialization failed".data])
    ∧ (r = AwaitOutcome.timedOut →
        ∀ code reason, HsEvent.closedWith code reason ∉ safe_ws_handler sid r) := by
  refine ⟨?_, rfl, ?_, ?_⟩
  · cases r with
    | resolved s => cases s <;> rfl
    | timedOut => rfl
  · intro hr; subst hr; rfl
  · intro hr code reason hmem
    subst hr
    simp [safe_ws_handler] at hmem

/-- C7 witness: concrete failure and timeout outcomes for session 7. -/
theorem handshake_ready_close_spec_witness :
    (safe_ws_handler 7 (AwaitOutcome.resolved false) =
      [HsEvent.sentReady 7,
       HsEvent.closedWith 1008 "Gemini initialization failed".data])
    ∧ HsEvent.closedWith 1008 "Gemini initialization failed".data ∉
        safe_ws_handler 7 AwaitOutcome.timedOut := by
  refine ⟨(handshake_ready_close_spec 7 (AwaitOutcome.resolved false)).2.2.1 rfl, ?_⟩
  exact (handshake_ready_close_spec 7 AwaitOutcome.timedOut).2.2.2 rfl 1008
    "Gemini initialization failed".data

/-! ## Claim C9: reconnection frame effect -/

/-- C9: both transparent reconnection paths (go_away with nonzero
time_left, and abnormal upstream close) leave `BaseInfo` and
`RocketMQ` untouched and replace only `genai_session`; the
`ReconnectionCompleted` arm of `handle_client` reuses the same session
record for the restarted pump. -/
theorem reconnect_preserves_session_fields (s : SessionState) (u : Nat) :
    ((goAwayReconnect s u).1.BaseInfo = s.BaseInfo ∧
      (goAwayReconnect s u).1.RocketMQ = s.RocketMQ ∧
      (goAwayReconnect s u).1.genai_session = u)
    ∧ ((abnormalCloseReconnect s u).1.BaseInfo = s.BaseInfo ∧
      (abnormalCloseReconnect s u).1.RocketMQ = s.RocketMQ ∧
      (abnormalCloseReconnect s u).1.genai_session = u)
    ∧ handleClientReconnectArm (goAwayReconnect s u).1 = (goAwayReconnect s u).1 := by
  exact ⟨⟨rfl, rfl, rfl⟩, ⟨rfl, rfl, rfl⟩, rfl⟩

/-! ## Claim C8: pool capacity invariant -/

/-- C8 counterexample: the capacity bound fails in two independent
ways.  First, with capacity 1 (batch 3), the interleaving
acquire-on-empty, release, acquire, replenish-to-capacity, release
drives the queue to 2: `return_session` puts into the unbounded
`asyncio.Queue` unconditionally.  Second, even with no release at all,
with capacity 2 and batch 2 a warmup put that lands after a concurrent
replenish has computed its deficit drives the queue to 3: the warmup
batch puts are not guarded by `self._lock`. -/
theorem pool_queue_exceeds_capacity :
    (PoolReach 1 3 ⟨2, 0, 0, false, 0, false, 0⟩ ∧ ¬ (2 ≤ 1)) ∧
    (PoolReachNoRelease 2 2 ⟨3, 1, 0, false, 0, true, 0⟩ ∧ ¬ (3 ≤ 2)) := by
  refine ⟨⟨?_, by decide⟩, ⟨?_, by decide⟩⟩
  · have s1 : PoolReach 1 3 ⟨0, 1, 0, false, 0, false, 0⟩ :=
      PoolReach.step _ _ _ PoolReach.init (PoolStep.acquireMiss 0 0 0 0 false false)
    have s2 : PoolReach 1 3 ⟨1, 0, 0, false, 0, false, 0⟩ :=
      PoolReach.step _ _ _ s1 (PoolStep.release 0 0 0 0 0 false false)
    have s3 : PoolReach 1 3 ⟨0, 1, 1, false, 0, false, 0⟩ :=
      PoolReach.step _ _ _ s2 (PoolStep.acquireHit 0 0 0 0 0 false false)
    have s4 : PoolReach 1 3 ⟨0, 1, 0, true, 1, false, 0⟩ :=
      PoolReach.step _ _ _ s3 (PoolStep.ensureGo 0 1 0 0 0 false (by decide))
    have s5 : PoolReach 1 3 ⟨1, 1, 0, true, 0, false, 0⟩ :=
      PoolReach.step _ _ _ s4 (PoolStep.putOk 0 1 0 0 0 false)
    have s6 : PoolReach 1 3 ⟨1, 1, 0, false, 0, false, 0⟩ :=
      PoolReach.step _ _ _ s5 (PoolStep.ensureDone 1 1 0 0 false)
    exact PoolReach.step _ _ _ s6 (PoolStep.release 1 0 0 0 0 false false)
  · have t1 : PoolReachNoRelease 2 2 ⟨0, 0, 0, false, 0, true, 2⟩ :=
      PoolReachNoRelease.step _ _ _ PoolReachNoRelease.init
        (PoolStep.warmupStart 0 0 0 0 false) (by decide)
    have t2 : PoolReachNoRelease 2 2 ⟨1, 0, 0, false, 0, true, 1⟩ :=
      PoolReachNoRelease.step _ _ _ t1
        (PoolStep.warmupPut 0 0 0 0 1 false) (by decide)
    have t3 : PoolReachNoRelease 2 2 ⟨0, 1, 1, false, 0, true, 1⟩ :=
      PoolReachNoRelease.step _ _ _ t2
        (PoolStep.acquireHit 0 0 0 0 1 false true) (by decide)
    have t4 : PoolReachNoRelease 2 2 ⟨0, 1, 0, true, 2, true, 1⟩ :=
      PoolReachNoRelease.step _ _ _ t3
        (PoolStep.ensureGo 0 1 0 0 1 true (by decide)) (by decide)
    have t5 : PoolReachNoRelease 2 2 ⟨1, 1, 0, true, 1, true, 1⟩ :=
      PoolReachNoRelease.step _ _ _ t4
        (PoolStep.putOk 0 1 0 1 1 true) (by decide)
    have t6 : PoolReachNoRelease 2 2 ⟨2, 1, 0, true, 0, true, 1⟩ :=
      PoolReachNoRelease.step _ _ _ t5
        (PoolStep.putOk 1 1 0 0 1 true) (by decide)
    have t7 : PoolReachNoRelease 2 2 ⟨2, 1, 0, false, 0, true, 1⟩ :=
      PoolReachNoRelease.step _ _ _ t6
        (PoolStep.ensureDone 2 1 0 1 true) (by decide)
    exact PoolReachNoRelease.step _ _ _ t7
      (PoolStep.warmupPut 2 1 0 0 0 false) (by decide)

theorem poolInv_step (cap batch : Nat) (lb : PoolLbl) (s s2 : PoolSt)
    (hstep : PoolStep cap batch lb s s2) (hlb : lb ≠ PoolLbl.release)
    (hinv : poolInv cap batch s) : poolInv cap batch s2 := by
  cases hstep with
  | warmupStart q o sc p l =>
    obtain ⟨h1, h2, h3, h4, h5⟩ := hinv
    refine ⟨h1, fun h => by simp at h, Nat.le_refl _,
      fun h => by simp at h, ?_⟩
    have h4q := h4 rfl
    dsimp only at h4q ⊢
    omega
  | warmupPut q o sc p wp l =>
    obtain ⟨h1, h2, h3, h4, h5⟩ := hinv
    dsimp only [poolInv] at h3 h5 ⊢
    refine ⟨h1, fun h => by simp at h, by omega,
      fun h => by simp at h, by omega⟩
  | warmupPutFail q o sc p wp l =>
    obtain ⟨h1, h2, h3, h4, h5⟩ := hinv
    dsimp only [poolInv] at h3 h5 ⊢
    refine ⟨h1, fun h => by simp at h, by omega,
      fun h => by simp at h, by omega⟩
  | acquireHit q o sc p wp l ws =>
    obtain ⟨h1, h2, h3, h4, h5⟩ := hinv
    dsimp only [poolInv] at h3 h5 ⊢
    refine ⟨h1, h2, h3, ?_, by omega⟩
    intro hws
    have := h4 hws
    dsimp only at this
    omega
  | acquireMiss o sc p wp l ws =>
    exact hinv
  | release q o sc p wp l ws =>
    exact absurd rfl hlb
  | ensureSkip q o sc p wp ws h =>
    exact hinv
  | ensureGo q o sc p wp ws h =>
    obtain ⟨h1, h2, h3, h4, h5⟩ := hinv
    have hp0 : p = 0 := h1 rfl
    dsimp only [poolInv] at h3 h5 ⊢
    refine ⟨fun h => by simp at h, h2, h3, ?_, by omega⟩
    intro hws
    have := h4 hws
    dsimp only at this
    omega
  | putOk q o sc p wp ws =>
    obtain ⟨h1, h2, h3, h4, h5⟩ := hinv
    dsimp only [poolInv] at h3 h5 ⊢
    refine ⟨fun h => by simp at h, h2, h3, ?_, by omega⟩
    intro hws
    have := h4 hws
    dsimp only at this
    omega
  | putFail q o sc p wp ws =>
    obtain ⟨h1, h2, h3, h4, h5⟩ := hinv
    dsimp only [poolInv] at h3 h5 ⊢
    refine ⟨fun h => by simp at h, h2, h3, ?_, by omega⟩
    intro hws
    have := h4 hws
    dsimp only at this
    omega
  | ensureDone q o sc wp ws =>
    obtain ⟨h1, h2, h3, h4, h5⟩ := hinv
    exact ⟨fun _ => rfl, h2, h3, h4, h5⟩

theorem poolInv_reach (cap batch : Nat) (s : PoolSt)
    (h : PoolReachNoRelease cap batch s) : poolInv cap batch s := by
  induction h with
  | init =>
    refine ⟨fun _ => rfl, fun _ => rfl, by simp [poolInit], fun _ => by simp [poolInit], ?_⟩
    simp [poolInit]
  | step s s2 lb hreach hstep hlb ih =>
    exact poolInv_step cap batch lb s s2 hstep hlb ih

/-- C8 (amended): in any interleaving of warmup, acquisitions and
background replenishes in which sessions are never returned to the
pool, the queue size never exceeds the configured capacity plus the
warmup batch `min batch_size pool_size`; both weakenings are forced
(the two counterexample traces). -/
theorem pool_capacity_bound_no_release (cap batch : Nat) (s : PoolSt)
    (h : PoolReachNoRelease cap batch s) :
    s.queue ≤ cap + min batch cap := by
  have hinv := poolInv_reach cap batch s h
  have h5 := hinv.2.2.2.2
  omega

/-- C8 witness: the state reached after the warmup batch, an
acquisition and a full replenish of a capacity-2, batch-2 pool (queue
2, one warmup put still in flight) satisfies the bound. -/
theorem pool_capacity_bound_no_release_witness :
    (PoolSt.mk 2 1 0 false 0 true 1).queue ≤ 2 + min 2 2 := by
  have t1 : PoolReachNoRelease 2 2 ⟨0, 0, 0, false, 0, true, 2⟩ :=
    PoolReachNoRelease.step _ _ _ PoolReachNoRelease.init
      (PoolStep.warmupStart 0 0 0 0 false) (by decide)
  have t2 : PoolReachNoRelease 2 2 ⟨1, 0, 0, false, 0, true, 1⟩ :=
    PoolReachNoRelease.step _ _ _ t1
      (PoolStep.warmupPut 0 0 0 0 1 false) (by decide)
  have t3 : PoolReachNoRelease 2 2 ⟨0, 1, 1, false, 0, true, 1⟩ :=
    PoolReachNoRelease.step _ _ _ t2
      (PoolStep.acquireHit 0 0 0 0 1 false true) (by decide)
  have t4 : PoolReachNoRelease 2 2 ⟨0, 1, 0, true, 2, true, 1⟩ :=
    PoolReachNoRelease.step _ _ _ t3
      (PoolStep.ensureGo 0 1 0 0 1 true (by decide)) (by decide)
  have t5 : PoolReachNoRelease 2 2 ⟨1, 1, 0, true, 1, true, 1⟩ :=
    PoolReachNoRelease.step _ _ _ t4
      (PoolStep.putOk 0 1 0 1 1 true) (by decide)
  have t6 : PoolReachNoRelease 2 2 ⟨2, 1, 0, true, 0, true, 1⟩ :=
    PoolReachNoRelease.step _ _ _ t5
      (PoolStep.putOk 1 1 0 0 1 true) (by decide)
  have t7 : PoolReachNoRelease 2 2 ⟨2, 1, 0, false, 0, true, 1⟩ :=
    PoolReachNoRelease.step _ _ _ t6
      (PoolStep.ensureDone 2 1 0 1 true) (by decide)
  exact pool_capacity_bound_no_release 2 2 ⟨2, 1, 0, false, 0, true, 1⟩ t7

/-! ## Claim C10: audio data is untouched by quote cleanup -/

/-- Characters on which every step of
`clean_unbalanced_or_extra_quotes` is a no-op. -/
def cleanSafeChar (c : Char) : Prop :=
  c ≠ '"' ∧ c ≠ '\\' ∧ isPySpace c = false

theorem b64Char_mem (n : Nat) : b64Char n ∈ b64Alphabet := by
  unfold b64Char
  rcases h : b64Alphabet[n]? with _ | a
  · have : b64Alphabet.getD n 'A' = 'A' := by
      simp [List.getD_eq_getElem?_getD, h]
    rw [this]
    decide
  · have : b64Alphabet.getD n 'A' = a := by
      simp [List.getD_eq_getElem?_getD, h]
    rw [this]
    exact List.getElem?_mem h

theorem b64Alphabet_safe : ∀ c ∈ b64Alphabet, cleanSafeChar c := by
  simp only [cleanSafeChar]
  decide

theorem b64Char_safe (n : Nat) : cleanSafeChar (b64Char n) :=
  b64Alphabet_safe _ (b64Char_mem n)

theorem b64Pad_safe : cleanSafeChar '=' := by
  simp only [cleanSafeChar]
  decide

theorem b64encode_safe (bytes : List Nat) :
    ∀ c ∈ b64encode bytes, cleanSafeChar c := by
  induction bytes using b64encode.induct with
  | case1 =>
    intro c hc
    simp [b64encode] at hc
  | case2 a =>
    intro c hc
    simp only [b64encode, List.mem_cons, List.not_mem_nil, or_false] at hc
    rcases hc with h | h | h | h <;> subst h
    · exact b64Char_safe _
    · exact b64Char_safe _
    · exact b64Pad_safe
    · exact b64Pad_safe
  | case3 a b =>
    intro c hc
    simp only [b64encode, List.mem_cons, List.not_mem_nil, or_false] at hc
    rcases hc with h | h | h | h <;> subst h
    · exact b64Char_safe _
    · exact b64Char_safe _
    · exact b64Char_safe _
    · exact b64Pad_safe
  | case4 a b cc rest ih =>
    intro c hc
    simp only [b64encode, List.mem_cons] at hc
    rcases hc with h | h | h | h | h
    · subst h; exact b64Char_safe _
    · subst h; exact b64Char_safe _
    · subst h; exact b64Char_safe _
    · subst h; exact b64Char_safe _
    · exact ih c h

theorem removeEscQuote_id (l : List Char) (h : ∀ c ∈ l, c ≠ '\\') :
    removeEscQuote l = l := by
  induction l using removeEscQuote.induct with
  | case1 rest ih => exact absurd rfl (h '\\' (by simp))
  | case2 c rest hne ih =>
    rw [removeEscQuote.eq_2 c rest hne,
        ih (fun x hx => h x (List.mem_cons_of_mem c hx))]
  | case3 => rfl

theorem collapseTwoGo_id (l : List Char) (h : ∀ c ∈ l, isPySpace c = false) :
    collapseTwoGo [] l = l := by
  induction l with
  | nil => rfl
  | cons c rest ih =>
    have hc : isPySpace c = false := h c (by simp)
    simp only [collapseTwoGo, hc, Bool.false_eq_true, if_false, List.length_nil,
      List.nil_append]
    simp only [show ¬ (2 ≤ 0) by omega, if_false, List.nil_append]
    rw [ih (fun x hx => h x (List.mem_cons_of_mem c hx))]

theorem dropWhile_id_of_all (p : Char → Bool) (l : List Char)
    (h : ∀ c ∈ l, p c = false) : l.dropWhile p = l := by
  cases l with
  | nil => rfl
  | cons c rest =>
    rw [List.dropWhile_cons]
    simp [h c (by simp)]

theorem pyStrip_id_of_all (l : List Char) (h : ∀ c ∈ l, isPySpace c = false) :
    pyStrip l = l := by
  unfold pyStrip
  rw [dropWhile_id_of_all _ _ h]
  rw [dropWhile_id_of_all _ _ (fun c hc => h c (List.mem_reverse.mp hc))]
  exact List.reverse_reverse l

theorem clean_id_of_safe (l : List Char) (h : ∀ c ∈ l, cleanSafeChar c) :
    clean_unbalanced_or_extra_quotes l = l := by
  unfold clean_unbalanced_or_extra_quotes
  rw [removeEscQuote_id l (fun c hc => (h c hc).2.1)]
  rw [List.filter_eq_self.mpr (fun c hc => by
    simpa using (h c hc).1)]
  unfold collapseTwo
  rw [collapseTwoGo_id l (fun c hc => (h c hc).2.2)]
  exact pyStrip_id_of_all l (fun c hc => (h c hc).2.2)

/-- C10: the audio payload sent to the client equals the Base64
encoding of the raw bytes; `clean_unbalanced_or_extra_quotes` is the
identity on Base64 output since the Base64 alphabet and the padding
character contain no double quote, no backslash and no whitespace. -/
theorem audio_payload_is_base64 (bytes : List Nat) :
    sentAudioData bytes = b64encode bytes := by
  unfold sentAudioData
  exact clean_id_of_safe (b64encode bytes) (b64encode_safe bytes)

/-! ## Claim C1: pure-English pass-through -/

theorem cjkCount_eq_zero (l : List Char) (h : ∀ c ∈ l, isCJK c = false) :
    cjkCount l = 0 := by
  unfold cjkCount
  rw [List.filter_eq_nil_iff.mpr (fun c hc => by simp [h c hc])]
  rfl

/-- C1 counterexample: the string of four characters a, space, space,
b contains no CJK character, yet `smart_clean_spaces` collapses its
double space, because its ASCII-letter share (2 of 4) is below the 0.6
threshold of the English-dominant early return. -/
theorem smart_clean_changes_some_non_cjk_input :
    smart_clean_spaces "a  b".data ≠ "a  b".data := by decide

/-- C1 (amended): a string with no CJK character in the block
U+4E00..U+9FFF whose ASCII-letter count is at least 60 percent of its
length is returned unchanged by `smart_clean_spaces` (its CJK ratio is
then 0, so the English-dominant early return fires; all-whitespace
strings return unchanged via the empty-strip guard). -/
theorem smart_clean_unchanged_no_cjk_english_dominant (l : List Char)
    (hcjk : ∀ c ∈ l, isCJK c = false)
    (hen : 3 * l.length ≤ 5 * asciiLetterCount l) :
    smart_clean_spaces l = l := by
  unfold smart_clean_spaces
  by_cases h0 : pyStrip l = []
  · simp [h0]
  · have hne : l ≠ [] := by
      intro h
      exact h0 (by simp [h, pyStrip])
    have hlen : 0 < l.length := List.length_pos.mpr hne
    have hch : cjkCount l = 0 := cjkCount_eq_zero l hcjk
    simp only [h0, hch, if_false]
    rw [if_pos ⟨hen, by omega⟩]

/-- C1 witness: a concrete English-dominant, CJK-free string passes
through unchanged. -/
theorem smart_clean_unchanged_no_cjk_english_dominant_witness :
    (∀ c ∈ "hello world".data, isCJK c = false) ∧
    3 * ("hello world".data).length ≤ 5 * asciiLetterCount "hello world".data ∧
    smart_clean_spaces "hello world".data = "hello world".data := by
  refine ⟨by decide, by decide, ?_⟩
  exact smart_clean_unchanged_no_cjk_english_dominant "hello world".data
    (by decide) (by decide)

/-! ## Claim C3: CJK cleanup of the concrete model text part -/

/-- C3 counterexample: the model text part 你好 ，  世界 hello has CJK
share 4 of 14, below the 0.6 CJK-dominance threshold, so the mixed
branch keeps one space at the CJK-letter boundary: the client does not
receive 你好，世界hello. -/
theorem cjk_cleanup_example_not_fully_joined :
    sentTextData "你好 ，  世界 hello".data ≠ "你好，世界hello".data := by decide

/-- C3 (amended): for the model text part 你好 ，  世界 hello the client
receives 你好，世界 hello: whitespace around the fullwidth comma is
removed, but the single space between 界 and hello is kept because the
text is mixed (CJK ratio 4 of 14 is below 0.6), not CJK-dominant. -/
theorem cjk_cleanup_example_client_payload :
    sentTextData "你好 ，  世界 hello".data = "你好，世界 hello".data := by decide

/-! ## Claim C2: idempotence of text normalization

Helper lemmas: the deletion and separation scanners are the identity
when their lookbehind or lookahead class never occurs. -/

theorem delBetweenGo_id_no_pA (pA pB : Char → Bool) (l : List Char)
    (h : ∀ c ∈ l, pA c = false) :
    ∀ pending, delBetweenGo pA pB false pending l = pending ++ l := by
  induction l with
  | nil => intro pending; simp [delBetweenGo]
  | cons c rest ih =>
    intro pending
    have hrest : ∀ x ∈ rest, pA x = false :=
      fun x hx => h x (List.mem_cons_of_mem c hx)
    by_cases hc : isPySpace c = true
    · simp only [delBetweenGo, hc, if_true]
      rw [ih hrest (pending ++ [c])]
      simp
    · have hpA : pA c = false := h c (List.mem_cons_self c rest)
      simp only [delBetweenGo, hc, Bool.false_eq_true, if_false, Bool.false_and,
        hpA]
      rw [ih hrest []]
      simp

theorem delBetweenGo_id_no_pB (pA pB : Char → Bool) (l : List Char)
    (h : ∀ c ∈ l, pB c = false) :
    ∀ prevA pending, delBetweenGo pA pB prevA pending l = pending ++ l := by
  induction l with
  | nil => intro prevA pending; simp [delBetweenGo]
  | cons c rest ih =>
    intro prevA pending
    have hrest : ∀ x ∈ rest, pB x = false :=
      fun x hx => h x (List.mem_cons_of_mem c hx)
    by_cases hc : isPySpace c = true
    · simp only [delBetweenGo, hc, if_true]
      rw [ih hrest prevA (pending ++ [c])]
      simp
    · have hpB : pB c = false := h c (List.mem_cons_self c rest)
      simp only [delBetweenGo, hc, Bool.false_eq_true, if_false, hpB,
        Bool.and_false]
      rw [ih hrest (pA c) []]
      simp

theorem sepBetweenGo_id_no_pA (pA pB : Char → Bool) (l : List Char)
    (h : ∀ c ∈ l, pA c = false) :
    ∀ pending, sepBetweenGo pA pB false pending l = pending ++ l := by
  induction l with
  | nil => intro pending; simp [sepBetweenGo]
  | cons c rest ih =>
    intro pending
    have hrest : ∀ x ∈ rest, pA x = false :=
      fun x hx => h x (List.mem_cons_of_mem c hx)
    by_cases hc : isPySpace c = true
    · simp only [sepBetweenGo, hc, if_true]
      rw [ih hrest (pending ++ [c])]
      simp
    · have hpA : pA c = false := h c (List.mem_cons_self c rest)
      simp only [sepBetweenGo, hc, Bool.false_eq_true, if_false, Bool.false_and,
        hpA]
      rw [ih hrest []]
      simp

theorem sepBetweenGo_id_no_pB (pA pB : Char → Bool) (l : List Char)
    (h : ∀ c ∈ l, pB c = false) :
    ∀ prevA pending, sepBetweenGo pA pB prevA pending l = pending ++ l := by
  induction l with
  | nil => intro prevA pending; simp [sepBetweenGo]
  | cons c rest ih =>
    intro prevA pending
    have hrest : ∀ x ∈ rest, pB x = false :=
      fun x hx => h x (List.mem_cons_of_mem c hx)
    by_cases hc : isPySpace c = true
    · simp only [sepBetweenGo, hc, if_true]
      rw [ih hrest prevA (pending ++ [c])]
      simp
    · have hpB : pB c = false := h c (List.mem_cons_self c rest)
      simp only [sepBetweenGo, hc, Bool.false_eq_true, if_false, hpB,
        Bool.and_false]
      rw [ih hrest (pA c) []]
      simp

theorem delBetween_id_no_pA (pA pB : Char → Bool) (l : List Char)
    (h : ∀ c ∈ l, pA c = false) : delBetween pA pB l = l := by
  unfold delBetween
  rw [delBetweenGo_id_no_pA pA pB l h []]
  rfl

theorem delBetween_id_no_pB (pA pB : Char → Bool) (l : List Char)
    (h : ∀ c ∈ l, pB c = false) : delBetween pA pB l = l := by
  unfold delBetween
  rw [delBetweenGo_id_no_pB pA pB l h false []]
  rfl

theorem sepBetween_id_no_pA (pA pB : Char → Bool) (l : List Char)
    (h : ∀ c ∈ l, pA c = false) : sepBetween pA pB l = l := by
  unfold sepBetween
  rw [sepBetweenGo_id_no_pA pA pB l h []]
  rfl

theorem sepBetween_id_no_pB (pA pB : Char → Bool) (l : List Char)
    (h : ∀ c ∈ l, pB c = false) : sepBetween pA pB l = l := by
  unfold sepBetween
  rw [sepBetweenGo_id_no_pB pA pB l h false []]
  rfl

/-! Membership lemmas: the pipeline only deletes characters or emits
plain spaces. -/

theorem mem_collapseSpacesGo (l : List Char) :
    ∀ b c, c ∈ collapseSpacesGo b l → c ∈ l ∨ c = ' ' := by
  induction l with
  | nil => intro b c hc; cases hc
  | cons a rest ih =>
    intro b c hc
    by_cases ha : isPySpace a = true
    · cases b with
      | true =>
        simp only [collapseSpacesGo, ha, if_true] at hc
        rcases ih true c hc with h | h
        · exact Or.inl (List.mem_cons_of_mem a h)
        · exact Or.inr h
      | false =>
        simp only [collapseSpacesGo, ha, if_true, Bool.false_eq_true, if_false,
          List.mem_cons] at hc
        rcases hc with h | h
        · exact Or.inr h
        · rcases ih true c h with h2 | h2
          · exact Or.inl (List.mem_cons_of_mem a h2)
          · exact Or.inr h2
    · simp only [collapseSpacesGo, ha, Bool.false_eq_true, if_false,
        List.mem_cons] at hc
      rcases hc with h | h
      · exact Or.inl (by simp [h])
      · rcases ih false c h with h2 | h2
        · exact Or.inl (List.mem_cons_of_mem a h2)
        · exact Or.inr h2

theorem mem_punctGo (l : List Char) :
    ∀ a pending c, c ∈ punctGo a pending l → c ∈ pending ∨ c ∈ l := by
  induction l with
  | nil =>
    intro a pending c hc
    simp only [punctGo] at hc
    cases a with
    | true => cases hc
    | false => exact Or.inl hc
  | cons x rest ih =>
    intro a pending c hc
    by_cases hx : isPySpace x = true
    · simp only [punctGo, hx, if_true] at hc
      rcases ih a (pending ++ [x]) c hc with h | h
      · rcases List.mem_append.mp h with h2 | h2
        · exact Or.inl h2
        · simp only [List.mem_singleton] at h2
          exact Or.inr (by simp [h2])
      · exact Or.inr (List.mem_cons_of_mem x h)
    · by_cases hp : isCJKPunct x = true
      · simp only [punctGo, hx, Bool.false_eq_true, if_false, hp, if_true,
          List.mem_cons] at hc
        rcases hc with h | h
        · exact Or.inr (by simp [h])
        · rcases ih true [] c h with h2 | h2
          · cases h2
          · exact Or.inr (List.mem_cons_of_mem x h2)
      · simp only [punctGo, hx, Bool.false_eq_true, if_false, hp,
          List.mem_append, List.mem_cons] at hc
        rcases hc with h | h | h
        · cases a with
          | true => simp at h
          | false => exact Or.inl (by simpa using h)
        · exact Or.inr (by simp [h])
        · rcases ih false [] c h with h2 | h2
          · cases h2
          · exact Or.inr (List.mem_cons_of_mem x h2)

theorem mem_pyStrip (l : List Char) (c : Char) (hc : c ∈ pyStrip l) : c ∈ l := by
  unfold pyStrip at hc
  rw [List.mem_reverse] at hc
  have h1 := (List.dropWhile_sublist (l := (l.dropWhile isPySpace).reverse)
    (p := isPySpace)).mem hc
  rw [List.mem_reverse] at h1
  exact (List.dropWhile_sublist (l := l) (p := isPySpace)).mem h1

/-! Head characterizations and character-class facts. -/

theorem punct_not_space (c : Char) (h : isCJKPunct c = true) :
    isPySpace c = false := by
  simp only [isCJKPunct, Bool.or_eq_true, beq_iff_eq] at h
  simp only [isPySpace, Bool.or_eq_false_iff, beq_eq_false_iff_ne, ne_eq,
    Bool.and_eq_false_iff, decide_eq_false_iff_not, not_le]
  omega

theorem collapseSpacesGo_true_head (l : List Char) :
    ∀ c, (collapseSpacesGo true l).head? = some c → isPySpace c = false := by
  induction l with
  | nil => intro c hc; cases hc
  | cons a rest ih =>
    intro c hc
    by_cases ha : isPySpace a = true
    · simp only [collapseSpacesGo, ha, if_true] at hc
      exact ih c hc
    · simp only [collapseSpacesGo, ha, Bool.false_eq_true, if_false,
        List.head?_cons, Option.some_inj] at hc
      rw [← hc]
      simpa using ha

theorem punctGo_true_head (l : List Char) :
    ∀ pending c, (punctGo true pending l).head? = some c →
      isPySpace c = false := by
  induction l with
  | nil =>
    intro pending c hc
    simp only [punctGo] at hc
    cases hc
  | cons a rest ih =>
    intro pending c hc
    by_cases ha : isPySpace a = true
    · simp only [punctGo, ha, if_true] at hc
      exact ih (pending ++ [a]) c hc
    · by_cases hp : isCJKPunct a = true
      · simp only [punctGo, ha, Bool.false_eq_true, if_false, hp, if_true,
          List.head?_cons, Option.some_inj] at hc
        rw [← hc]
        simpa using ha
      · simp only [punctGo, ha, Bool.false_eq_true, if_false, hp, if_true,
          List.nil_append, List.head?_cons, Option.some_inj] at hc
        rw [← hc]
        simpa using ha

theorem dropWhile_head_false (p : Char → Bool) (l : List Char) :
    ∀ c, (l.dropWhile p).head? = some c → p c = false := by
  induction l with
  | nil => intro c hc; cases hc
  | cons a rest ih =>
    intro c hc
    by_cases ha : p a = true
    · rw [List.dropWhile_cons_of_pos ha] at hc
      exact ih c hc
    · rw [List.dropWhile_cons_of_neg (by simpa using ha)] at hc
      simp only [List.head?_cons, Option.some_inj] at hc
      rw [← hc]
      simpa using ha

theorem pyStrip_getLast_false (l : List Char) :
    ∀ c, (pyStrip l).getLast? = some c → isPySpace c = false := by
  intro c hc
  unfold pyStrip at hc
  rw [List.getLast?_reverse] at hc
  exact dropWhile_head_false isPySpace (l.dropWhile isPySpace).reverse c hc

theorem suffix_getLast (l s : List Char) (h : s <:+ l) (hne : s ≠ []) :
    s.getLast? = l.getLast? := by
  obtain ⟨t, ht⟩ := h
  rw [← ht, List.getLast?_append_of_ne_nil t hne]

theorem pyStrip_head_false (l : List Char) :
    ∀ c, (pyStrip l).head? = some c → isPySpace c = false := by
  intro c hc
  unfold pyStrip at hc
  rw [List.head?_reverse] at hc
  rcases heq : (l.dropWhile isPySpace).reverse.dropWhile isPySpace with _ | ⟨x, xs⟩
  · rw [heq] at hc
    cases hc
  · have hne : (l.dropWhile isPySpace).reverse.dropWhile isPySpace ≠ [] := by
      rw [heq]
      simp
    have hsuf : (l.dropWhile isPySpace).reverse.dropWhile isPySpace <:+
        (l.dropWhile isPySpace).reverse := List.dropWhile_suffix isPySpace
    rw [suffix_getLast _ _ hsuf hne, List.getLast?_reverse] at hc
    exact dropWhile_head_false isPySpace l c hc

/-! Structure of collapse output: only plain spaces, never adjacent. -/

theorem collapseSpacesGo_allPlain (l : List Char) :
    ∀ b, AllPlain (collapseSpacesGo b l) := by
  induction l with
  | nil => intro b c hc; cases hc
  | cons a rest ih =>
    intro b c hc hsp
    by_cases ha : isPySpace a = true
    · cases b with
      | true =>
        simp only [collapseSpacesGo, ha, if_true] at hc
        exact ih true c hc hsp
      | false =>
        simp only [collapseSpacesGo, ha, if_true, Bool.false_eq_true, if_false,
          List.mem_cons] at hc
        rcases hc with h | h
        · exact h
        · exact ih true c h hsp
    · simp only [collapseSpacesGo, ha, Bool.false_eq_true, if_false,
        List.mem_cons] at hc
      rcases hc with h | h
      · exact absurd (h ▸ hsp) ha
      · exact ih false c h hsp

theorem collapseSpacesGo_noAdj (l : List Char) :
    ∀ b, NoAdj (collapseSpacesGo b l) := by
  induction l with
  | nil => intro b; exact List.chain'_nil
  | cons a rest ih =>
    intro b
    by_cases ha : isPySpace a = true
    · cases b with
      | true =>
        simp only [collapseSpacesGo, ha, if_true]
        exact ih true
      | false =>
        simp only [collapseSpacesGo, ha, if_true, Bool.false_eq_true, if_false]
        unfold NoAdj
        rw [List.chain'_cons']
        refine ⟨?_, ih true⟩
        intro y hy
        exact Or.inr (collapseSpacesGo_true_head rest y hy)
    · simp only [collapseSpacesGo, ha, Bool.false_eq_true, if_false]
      unfold NoAdj
      rw [List.chain'_cons']
      refine ⟨?_, ih false⟩
      intro y hy
      exact Or.inl (by simpa using ha)

/-! CleanTriple constructors. -/

theorem cleanTriple_nil : CleanTriple [] := by
  unfold CleanTriple
  refine ⟨?_, ?_, ?_⟩
  · intro c hc
    cases hc
  · exact List.chain'_nil
  · exact List.chain'_nil

theorem cleanTriple_cons_nonpunct (a : Char) (x : List Char)
    (haS : isPySpace a = false) (haP : isCJKPunct a = false)
    (hx : CleanTriple x) : CleanTriple (a :: x) := by
  obtain ⟨hA, hN, hP⟩ := hx
  refine ⟨?_, ?_, ?_⟩
  · intro c hc hsp
    rcases List.mem_cons.mp hc with h | h
    · exact absurd (h ▸ hsp) (by simp [haS])
    · exact hA c h hsp
  · unfold NoAdj
    rw [List.chain'_cons']
    exact ⟨fun y _ => Or.inl haS, hN⟩
  · unfold NoPunctAdj
    rw [List.chain'_cons']
    exact ⟨fun y _ => ⟨Or.inl haS, Or.inl haP⟩, hP⟩

theorem cleanTriple_cons_punct (a : Char) (x : List Char)
    (haP : isCJKPunct a = true)
    (hhead : ∀ c, x.head? = some c → isPySpace c = false)
    (hx : CleanTriple x) : CleanTriple (a :: x) := by
  obtain ⟨hA, hN, hP⟩ := hx
  have haS : isPySpace a = false := punct_not_space a haP
  refine ⟨?_, ?_, ?_⟩
  · intro c hc hsp
    rcases List.mem_cons.mp hc with h | h
    · exact absurd (h ▸ hsp) (by simp [haS])
    · exact hA c h hsp
  · unfold NoAdj
    rw [List.chain'_cons']
    exact ⟨fun y _ => Or.inl haS, hN⟩
  · unfold NoPunctAdj
    rw [List.chain'_cons']
    exact ⟨fun y hy => ⟨Or.inl haS, Or.inr (hhead y hy)⟩, hP⟩

theorem cleanTriple_cons_blank (x : List Char)
    (hhead : ∀ c, x.head? = some c → isPySpace c = false ∧ isCJKPunct c = false)
    (hx : CleanTriple x) : CleanTriple (' ' :: x) := by
  obtain ⟨hA, hN, hP⟩ := hx
  refine ⟨?_, ?_, ?_⟩
  · intro c hc hsp
    rcases List.mem_cons.mp hc with h | h
    · exact h
    · exact hA c h hsp
  · unfold NoAdj
    rw [List.chain'_cons']
    exact ⟨fun y hy => Or.inr (hhead y hy).1, hN⟩
  · unfold NoPunctAdj
    rw [List.chain'_cons']
    exact ⟨fun y hy => ⟨Or.inr (hhead y hy).2, Or.inl (by decide)⟩, hP⟩

/-! Chain' transfer through suffixes and reversal, for `pyStrip`. -/

theorem chain'_of_suffix (R : Char → Char → Prop) (l s : List Char)
    (h : s <:+ l) (hc : List.Chain' R l) : List.Chain' R s := by
  obtain ⟨t, rfl⟩ := h
  exact (List.chain'_append.mp hc).2.1

theorem chain'_pyStrip (R : Char → Char → Prop)
    (hsym : ∀ a b, R a b → R b a) (l : List Char)
    (h : List.Chain' R l) : List.Chain' R (pyStrip l) := by
  unfold pyStrip
  have h1 : List.Chain' R (l.dropWhile isPySpace) :=
    chain'_of_suffix R l _ (List.dropWhile_suffix isPySpace) h
  have h2 : List.Chain' R (l.dropWhile isPySpace).reverse :=
    List.chain'_reverse.mpr (h1.imp (fun a b hab => hsym a b hab))
  have h3 : List.Chain' R ((l.dropWhile isPySpace).reverse.dropWhile isPySpace) :=
    chain'_of_suffix R _ _ (List.dropWhile_suffix isPySpace) h2
  exact List.chain'_reverse.mpr (h3.imp (fun a b hab => hsym a b hab))

theorem cleanTriple_pyStrip (l : List Char) (h : CleanTriple l) :
    CleanTriple (pyStrip l) := by
  obtain ⟨hA, hN, hP⟩ := h
  refine ⟨?_, ?_, ?_⟩
  · intro c hc hsp
    exact hA c (mem_pyStrip l c hc) hsp
  · exact chain'_pyStrip _ (fun a b hab => hab.symm) l hN
  · exact chain'_pyStrip _ (fun a b hab => ⟨hab.2.symm, hab.1.symm⟩) l hP

/-! The punctuation scanner preserves the shape invariants. -/

theorem punctGo_clean (l : List Char) :
    ∀ (afterP : Bool) (pending : List Char),
      AllPlain (pending ++ l) → NoAdj (pending ++ l) →
      (pending = [] ∨ pending = [' ']) →
      CleanTriple (punctGo afterP pending l) := by
  induction l with
  | nil =>
    intro afterP pending hA hN hp
    simp only [punctGo]
    cases afterP with
    | true => exact cleanTriple_nil
    | false =>
      rcases hp with rfl | rfl
      · exact cleanTriple_nil
      · exact cleanTriple_cons_blank [] (fun c hc => by cases hc) cleanTriple_nil
  | cons a rest ih =>
    intro afterP pending hA hN hp
    by_cases ha : isPySpace a = true
    · rcases hp with rfl | rfl
      · simp only [punctGo, ha, if_true]
        have haeq : a = ' ' := hA a (by simp) ha
        refine ih afterP ([] ++ [a]) ?_ ?_ (Or.inr (by simp [haeq]))
        · simpa using hA
        · simpa using hN
      · exfalso
        unfold NoAdj at hN
        rw [List.singleton_append, List.chain'_cons] at hN
        rcases hN.1 with h | h
        · exact absurd h (by decide)
        · exact absurd h (by simp [ha])
    · by_cases hpct : isCJKPunct a = true
      · simp only [punctGo, ha, Bool.false_eq_true, if_false, hpct, if_true]
        have hrest : CleanTriple (punctGo true [] rest) := by
          refine ih true [] ?_ ?_ (Or.inl rfl)
          · intro c hc hsp
            exact hA c (List.mem_append.mpr (Or.inr (List.mem_cons_of_mem a hc)))
              hsp
          · exact chain'_of_suffix _ _ _ ⟨pending ++ [a], by simp⟩ hN
        exact cleanTriple_cons_punct a _ hpct (punctGo_true_head rest []) hrest
      · simp only [punctGo, ha, Bool.false_eq_true, if_false, hpct]
        have hrest : CleanTriple (punctGo false [] rest) := by
          refine ih false [] ?_ ?_ (Or.inl rfl)
          · intro c hc hsp
            exact hA c (List.mem_append.mpr (Or.inr (List.mem_cons_of_mem a hc)))
              hsp
          · exact chain'_of_suffix _ _ _ ⟨pending ++ [a], by simp⟩ hN
        have hcons : CleanTriple (a :: punctGo false [] rest) :=
          cleanTriple_cons_nonpunct a _ (by simpa using ha) (by simpa using hpct)
            hrest
        cases afterP with
        | true => exact hcons
        | false =>
          rcases hp with rfl | rfl
          · exact hcons
          · refine cleanTriple_cons_blank _ ?_ hcons
            intro c hc
            simp only [List.append_eq, List.nil_append, List.head?_cons,
              Option.some_inj] at hc
            rw [← hc]
            exact ⟨by simpa using ha, by simpa using hpct⟩

theorem stripAroundPunct_clean (l : List Char)
    (hA : AllPlain l) (hN : NoAdj l) : CleanTriple (stripAroundPunct l) := by
  unfold stripAroundPunct
  exact punctGo_clean l false [] (by simpa using hA) (by simpa using hN)
    (Or.inl rfl)

/-! Identity of each cleaning step on its own output shape. -/

theorem punctGo_id (l : List Char) :
    ∀ (afterP : Bool) (pending : List Char),
      (afterP = true → pending = []) →
      (∀ x ∈ pending, isPySpace x = true) →
      NoAdj (pending ++ l) → NoPunctAdj (pending ++ l) →
      (afterP = true → ∀ c, l.head? = some c → isPySpace c = false) →
      punctGo afterP pending l = pending ++ l := by
  induction l with
  | nil =>
    intro afterP pending h1 h2 hN hP h5
    simp only [punctGo]
    cases afterP with
    | true => simp [h1 rfl]
    | false => simp
  | cons a rest ih =>
    intro afterP pending h1 h2 hN hP h5
    by_cases ha : isPySpace a = true
    · have hap : afterP = false := by
        cases afterP with
        | false => rfl
        | true => exact absurd (h5 rfl a rfl) (by simp [ha])
      subst hap
      have hpe : pending = [] := by
        cases pending with
        | nil => rfl
        | cons q qs =>
          exfalso
          have hx : ∃ x, (q :: qs).getLast? = some x := by
            cases hq : (q :: qs).getLast? with
            | none =>
              rw [List.getLast?_eq_none_iff] at hq
              cases hq
            | some x => exact ⟨x, rfl⟩
          obtain ⟨x, hx⟩ := hx
          have hxmem : x ∈ q :: qs := List.mem_of_mem_getLast? hx
          unfold NoAdj at hN
          rw [List.chain'_append] at hN
          have hrel := hN.2.2 x (by rw [hx]; rfl) a rfl
          rcases hrel with h | h
          · exact absurd (h2 x hxmem) (by simp [h])
          · exact absurd ha (by simp [h])
      subst hpe
      simp only [punctGo, ha, if_true]
      have haeq : ∀ x ∈ [a], isPySpace x = true := by
        intro x hx
        rw [List.mem_singleton.mp hx]
        exact ha
      rw [ih false ([] ++ [a]) (fun h => by cases h) (by simpa using haeq)
        (by simpa using hN) (by simpa using hP) (fun h => by cases h)]
      simp
    · by_cases hpct : isCJKPunct a = true
      · have hpe : pending = [] := by
          cases pending with
          | nil => rfl
          | cons q qs =>
            exfalso
            have hx : ∃ x, (q :: qs).getLast? = some x := by
              cases hq : (q :: qs).getLast? with
              | none =>
                rw [List.getLast?_eq_none_iff] at hq
                cases hq
              | some x => exact ⟨x, rfl⟩
            obtain ⟨x, hx⟩ := hx
            have hxmem : x ∈ q :: qs := List.mem_of_mem_getLast? hx
            unfold NoPunctAdj at hP
            rw [List.chain'_append] at hP
            have hrel := (hP.2.2 x (by rw [hx]; rfl) a rfl).1
            rcases hrel with h | h
            · exact absurd (h2 x hxmem) (by simp [h])
            · exact absurd hpct (by simp [h])
        subst hpe
        simp only [punctGo, ha, Bool.false_eq_true, if_false, hpct, if_true]
        have hN2 : NoAdj rest := by
          unfold NoAdj at hN ⊢
          rw [List.nil_append] at hN
          exact (List.chain'_cons'.mp hN).2
        have hP2 : NoPunctAdj rest := by
          unfold NoPunctAdj at hP ⊢
          rw [List.nil_append] at hP
          exact (List.chain'_cons'.mp hP).2
        have hhead : ∀ c, rest.head? = some c → isPySpace c = false := by
          intro c hc
          unfold NoPunctAdj at hP
          rw [List.nil_append] at hP
          have hrel := ((List.chain'_cons'.mp hP).1 c hc).2
          rcases hrel with h | h
          · exact absurd hpct (by simp [h])
          · exact h
        rw [ih true [] (fun _ => rfl) (by simp) (by simpa using hN2)
          (by simpa using hP2) (fun _ => hhead)]
        simp
      · simp only [punctGo, ha, Bool.false_eq_true, if_false, hpct]
        have hsuf : rest <:+ pending ++ a :: rest := ⟨pending ++ [a], by simp⟩
        have hN2 : NoAdj rest := chain'_of_suffix _ _ _ hsuf hN
        have hP2 : NoPunctAdj rest := chain'_of_suffix _ _ _ hsuf hP
        rw [ih false [] (fun h => by cases h) (by simp) (by simpa using hN2)
          (by simpa using hP2) (fun h => by cases h)]
        cases afterP with
        | true => simp [h1 rfl]
        | false => simp

theorem stripAroundPunct_id (l : List Char) (hN : NoAdj l) (hP : NoPunctAdj l) :
    stripAroundPunct l = l := by
  unfold stripAroundPunct
  rw [punctGo_id l false [] (fun h => by cases h) (by simp)
    (by simpa using hN) (by simpa using hP) (fun h => by cases h)]
  simp

theorem collapseSpacesGo_id (l : List Char) :
    ∀ inRun, AllPlain l → NoAdj l →
      (inRun = true → ∀ c, l.head? = some c → isPySpace c = false) →
      collapseSpacesGo inRun l = l := by
  induction l with
  | nil => intro inRun _ _ _; rfl
  | cons a rest ih =>
    intro inRun hA hN h5
    have hN2 : NoAdj rest := by
      unfold NoAdj at hN ⊢
      exact (List.chain'_cons'.mp hN).2
    have hA2 : AllPlain rest := fun c hc => hA c (List.mem_cons_of_mem a hc)
    by_cases ha : isPySpace a = true
    · have hap : inRun = false := by
        cases inRun with
        | false => rfl
        | true => exact absurd (h5 rfl a rfl) (by simp [ha])
      subst hap
      have haeq : a = ' ' := hA a (by simp) ha
      simp only [collapseSpacesGo, ha, if_true, Bool.false_eq_true, if_false]
      have hhead : ∀ c, rest.head? = some c → isPySpace c = false := by
        intro c hc
        unfold NoAdj at hN
        have hrel := (List.chain'_cons'.mp hN).1 c hc
        rcases hrel with h | h
        · exact absurd ha (by simp [h])
        · exact h
      rw [ih true hA2 hN2 (fun _ => hhead), haeq]
    · simp only [collapseSpacesGo, ha, Bool.false_eq_true, if_false]
      rw [ih false hA2 hN2 (fun h => by cases h)]

theorem collapseSpaces_id (l : List Char) (hA : AllPlain l) (hN : NoAdj l) :
    collapseSpaces l = l :=
  collapseSpacesGo_id l false hA hN (fun h => by cases h)

theorem dropWhile_id_of_head (p : Char → Bool) (l : List Char)
    (h : ∀ c, l.head? = some c → p c = false) : l.dropWhile p = l := by
  cases l with
  | nil => rfl
  | cons a rest => exact List.dropWhile_cons_of_neg (by simp [h a rfl])

theorem pyStrip_id_of_edges (l : List Char)
    (hh : ∀ c, l.head? = some c → isPySpace c = false)
    (hl : ∀ c, l.getLast? = some c → isPySpace c = false) :
    pyStrip l = l := by
  unfold pyStrip
  rw [dropWhile_id_of_head isPySpace l hh]
  rw [dropWhile_id_of_head isPySpace l.reverse
    (fun c hc => hl c (by rwa [List.head?_reverse] at hc))]
  exact List.reverse_reverse l

theorem noCJK_collapse (l : List Char) (h : ∀ c ∈ l, isCJK c = false) :
    ∀ c ∈ collapseSpaces l, isCJK c = false := by
  intro c hc
  rcases mem_collapseSpacesGo l false c hc with h2 | h2
  · exact h c h2
  · rw [h2]
    decide

/-- On CJK-free input, `smart_clean_spaces` reduces to the
empty-strip guard, the English-dominant early return, and otherwise
whitespace collapse, punctuation spacing removal and strip: the three
CJK-aware deletion passes and the two mixed-mode separation passes are
the identity. -/
theorem scs_noCJK_eq (l : List Char) (h : ∀ c ∈ l, isCJK c = false) :
    smart_clean_spaces l =
      if pyStrip l = [] then l
      else if 3 * l.length ≤ 5 * asciiLetterCount l then l
      else pyStrip (stripAroundPunct (collapseSpaces l)) := by
  unfold smart_clean_spaces
  by_cases h0 : pyStrip l = []
  · simp [h0]
  · rw [if_neg h0, if_neg h0]
    have hne : l ≠ [] := by
      intro hl
      exact h0 (by simp [hl, pyStrip])
    have hlen : 0 < l.length := List.length_pos.mpr hne
    have hch : cjkCount l = 0 := cjkCount_eq_zero l h
    have hr1 := noCJK_collapse l h
    by_cases hen : 3 * l.length ≤ 5 * asciiLetterCount l
    · rw [if_pos ⟨hen, by simp only [hch]; omega⟩, if_pos hen]
    · rw [if_neg (by
        intro hcontra
        exact hen hcontra.1), if_neg hen]
      simp only [hch, Nat.mul_zero]
      rw [if_neg (by omega : ¬ 3 * l.length ≤ 0)]
      rw [delBetween_id_no_pA isCJK isCJK _ hr1]
      rw [delBetween_id_no_pB isAsciiDigit isCJK _ hr1]
      rw [delBetween_id_no_pA isCJK isAsciiDigit _ hr1]
      rw [sepBetween_id_no_pA isCJK isAsciiLetter _ hr1]
      rw [sepBetween_id_no_pB isAsciiLetter isCJK _ hr1]

/-- C2 counterexample: normalization is not idempotent.  The
7-character string 你你空你你空a is mixed on the first pass (CJK share
4 of 7), which joins the CJK pair and keeps one space before the
letter; the 6-character result has CJK share 4 of 6 and a second pass,
now CJK-dominant, deletes the remaining boundary space. -/
theorem smart_clean_not_idempotent :
    smart_clean_spaces (smart_clean_spaces "你你 你你 a".data) ≠
      smart_clean_spaces "你你 你你 a".data := by decide

/-- C2 (amended): `smart_clean_spaces` is idempotent on every string
containing no CJK character: the first pass leaves only single plain
spaces, none adjacent to CJK punctuation and none at the edges, and
every remaining step of a second pass fixes such strings. -/
theorem smart_clean_idempotent_no_cjk (l : List Char)
    (h : ∀ c ∈ l, isCJK c = false) :
    smart_clean_spaces (smart_clean_spaces l) = smart_clean_spaces l := by
  by_cases h0 : pyStrip l = []
  · have hy : smart_clean_spaces l = l := by
      rw [scs_noCJK_eq l h, if_pos h0]
    rw [hy]
    exact hy
  · by_cases hen : 3 * l.length ≤ 5 * asciiLetterCount l
    · have hy : smart_clean_spaces l = l := by
        rw [scs_noCJK_eq l h, if_neg h0, if_pos hen]
      rw [hy]
      exact hy
    · have hy : smart_clean_spaces l =
          pyStrip (stripAroundPunct (collapseSpaces l)) := by
        rw [scs_noCJK_eq l h, if_neg h0, if_neg hen]
      rw [hy]
      have hAc : AllPlain (collapseSpaces l) := collapseSpacesGo_allPlain l false
      have hNc : NoAdj (collapseSpaces l) := collapseSpacesGo_noAdj l false
      have htriple : CleanTriple (stripAroundPunct (collapseSpaces l)) :=
        stripAroundPunct_clean _ hAc hNc
      have hfx : CleanTriple (pyStrip (stripAroundPunct (collapseSpaces l))) :=
        cleanTriple_pyStrip _ htriple
      have hfxCJK : ∀ c ∈ pyStrip (stripAroundPunct (collapseSpaces l)),
          isCJK c = false := by
        intro c hc
        have h1 := mem_pyStrip _ c hc
        rcases mem_punctGo _ false [] c h1 with h2 | h2
        · cases h2
        · exact noCJK_collapse l h c h2
      rw [scs_noCJK_eq _ hfxCJK]
      by_cases hfx0 : pyStrip (pyStrip (stripAroundPunct (collapseSpaces l))) = []
      · rw [if_pos hfx0]
      · rw [if_neg hfx0]
        by_cases hfxen : 3 * (pyStrip (stripAroundPunct (collapseSpaces l))).length
            ≤ 5 * asciiLetterCount (pyStrip (stripAroundPunct (collapseSpaces l)))
        · rw [if_pos hfxen]
        · rw [if_neg hfxen]
          rw [collapseSpaces_id _ hfx.1 hfx.2.1]
          rw [stripAroundPunct_id _ hfx.2.1 hfx.2.2]
          exact pyStrip_id_of_edges _
            (pyStrip_head_false (stripAroundPunct (collapseSpaces l)))
            (pyStrip_getLast_false (stripAroundPunct (collapseSpaces l)))

/-- C2 witness: a concrete CJK-free string on which normalization is
applied twice with the same result. -/
theorem smart_clean_idempotent_no_cjk_witness :
    (∀ c ∈ "a  b".data, isCJK c = false) ∧
    smart_clean_spaces (smart_clean_spaces "a  b".data) =
      smart_clean_spaces "a  b".data := by
  refine ⟨by decide, ?_⟩
  exact smart_clean_idempotent_no_cjk "a  b".data (by decide)

/-- Mixed-text retention scenario of the spec: an English-dominant
sentence with digits passes through `smart_clean_spaces` unchanged. -/
theorem english_time_text_unchanged :
    smart_clean_spaces "It is 10:32 AM".data = "It is 10:32 AM".data := by
  decide

end LiveAI
